import Mathlib

/-!
Shallow embedding of the core of `bot.py` (a Telegram-to-CUPS printing bot):
the copy-count caption parser (`parse_copies`), the eligibility engine
(`can_print`), the print-history store (`load_print_history`,
`save_print_history`, `record_print`), the `/setmaxcopies` command handler
(`set_max_copies_command`) and the image-dispatch path (`handle_image`).

Modelling conventions:
* Python `datetime` values are modelled by `PyDatetime`: an integer number of
  microseconds together with an awareness flag (`aware = true` for values
  carrying a UTC offset).  Subtracting an aware from a naive datetime (or
  vice versa) raises `TypeError` in Python; `pySub` returns `Except` to model
  this.  `timedelta` values are plain integers (microseconds).
* Caption text is a `List Char`; the regular expressions `x(\d+)` and
  `copies\s*=\s*(\d+)` (ASCII fragment) are embedded as the recursive
  matchers `matchXNum` and `matchCopiesNum` run after Python's
  `.strip().lower()` normalisation (`normalizeCaption`).
* The in-memory `print_history` dict is a `List (Int × Entry)` with
  dict-style first-match lookup and overwrite-or-append insertion.
* The persisted JSON file is a list of key/value pairs: keys are `KeyStr`
  (either the decimal rendering of an integer, as written by `str(user_id)`,
  or some other string), values are `JsonVal` (old-format plain timestamp
  string, new-format object, or anything else).  A timestamp string is
  `PyStr.iso micros hasOffset` when it is a valid ISO-8601 datetime (so
  `datetime.fromisoformat` succeeds and yields an aware value iff
  `hasOffset`), and `PyStr.nonIso s` otherwise.
* External effects (image resize, CUPS submission, file write) are modelled
  by boolean outcome fields of `DispatchInput` / explicit parameters.
-/

/-- Python exceptions relevant to the embedded code paths. -/
inductive PyErr where
  | typeError
  | valueError
deriving DecidableEq

/-- A Python `datetime`: microseconds on a common scale plus the
offset-awareness flag.  `datetime.now(timezone.utc)` is aware;
`datetime.fromisoformat` of a string without offset is naive. -/
structure PyDatetime where
  micros : Int
  aware : Bool
deriving DecidableEq

/-- `a - b` on Python datetimes: a `timedelta` (microseconds) when both are
aware or both naive, `TypeError` otherwise. -/
def pySub (a b : PyDatetime) : Except PyErr Int :=
  if a.aware = b.aware then .ok (a.micros - b.micros) else .error .typeError

/-- Microseconds in one day. -/
def microsPerDay : Int := 86400 * 1000000

/-- `UNAUTHORIZED_USER_PRINT_INTERVAL = timedelta(days=7)`. -/
def UNAUTHORIZED_USER_PRINT_INTERVAL : Int := 7 * microsPerDay

/-- One value of the `print_history` dict:
`{"last_print": datetime, "username": str}`. -/
structure Entry where
  lastPrint : PyDatetime
  username : String
deriving DecidableEq

/-- The in-memory `print_history` dict. -/
abbrev History : Type := List (Int × Entry)

instance : DecidableEq History := inferInstanceAs (DecidableEq (List (Int × Entry)))

/-- `print_history.get(user_id)`: first-match association lookup. -/
def histLookup (hist : History) (uid : Int) : Option Entry :=
  match hist with
  | [] => none
  | p :: t => if p.1 = uid then some p.2 else histLookup t uid

/-- `print_history[user_id] = entry`: overwrite the existing binding in
place, or append a new one (Python dict assignment semantics). -/
def insertEntry (hist : History) (uid : Int) (e : Entry) : History :=
  if (histLookup hist uid).isSome then
    hist.map (fun p => if p.1 = uid then (uid, e) else p)
  else hist ++ [(uid, e)]

/-- A `dict` never holds the same key twice. -/
def NodupKeys (hist : History) : Prop := (hist.map Prod.fst).Nodup

/-- Process-wide configuration read from the environment (plus the
runtime-mutable `MAX_COPIES`). -/
structure Config where
  allowedUserIds : List Int
  allowGuestPrinting : Bool
  maxCopies : Int
  printerConfigured : Bool
deriving DecidableEq

/-- `ALLOWED_USER_IDS and user_id in ALLOWED_USER_IDS`: the empty list is
falsy in Python, so authorization needs a non-empty list AND membership. -/
def isAuthorized (cfg : Config) (uid : Int) : Prop :=
  cfg.allowedUserIds ≠ [] ∧ uid ∈ cfg.allowedUserIds

instance (cfg : Config) (uid : Int) : Decidable (isAuthorized cfg uid) :=
  inferInstanceAs (Decidable (_ ∧ _))

/-- The two denial messages `can_print` can produce.  `rateLimited` carries
the `wait_time` timedelta the message is rendered from. -/
inductive DenyReason where
  | rateLimited (wait : Int)
  | guestsNotPermitted
deriving DecidableEq

/-- `timedelta.days` of a microseconds value (floor division). -/
def tdDays (t : Int) : Int := t.fdiv microsPerDay

/-- `timedelta.seconds` of a microseconds value (in `[0, 86400)`). -/
def tdSeconds (t : Int) : Int := (t.fmod microsPerDay).fdiv 1000000

/-- The human-readable wait string built inside `can_print`. -/
def formatWait (wait : Int) : String :=
  let days := tdDays wait
  let hours := (tdSeconds wait).fdiv 3600
  let remainder := (tdSeconds wait).fmod 3600
  let minutes := remainder.fdiv 60
  let s1 := if days > 0 then toString days ++ " day" ++ (if days ≠ 1 then "s" else "") else ""
  let s2 := if hours > 0 then
      s1 ++ (if days > 0 then ", " else "") ++ toString hours ++ " hour" ++
        (if hours ≠ 1 then "s" else "")
    else s1
  let s3 := if days = 0 ∧ hours = 0 ∧ minutes > 0 then
      s2 ++ toString minutes ++ " minute" ++ (if minutes ≠ 1 then "s" else "")
    else s2
  if s3 = "" then "less than a minute" else s3

/-- The user-facing text of a denial reason. -/
def renderReason : DenyReason → String
  | .rateLimited w =>
      "You have already printed recently. Please wait " ++ formatWait w ++
        " before printing again."
  | .guestsNotPermitted => "Printing is restricted to authorized users only."

/-- `can_print(user_id)`: the eligibility engine.  `nowMicros` is the clock
behind `datetime.now(timezone.utc)` (always aware).  The naive/aware
subtraction may raise `TypeError`, hence the `Except`. -/
def can_print (cfg : Config) (hist : History) (nowMicros : Int) (userId : Int) :
    Except PyErr (Bool × Option DenyReason) :=
  if isAuthorized cfg userId then .ok (true, none)
  else
    match histLookup hist userId with
    | some entry =>
        match pySub ⟨nowMicros, true⟩ entry.lastPrint with
        | .error e => .error e
        | .ok elapsed =>
            if elapsed < UNAUTHORIZED_USER_PRINT_INTERVAL then
              .ok (false, some (.rateLimited (UNAUTHORIZED_USER_PRINT_INTERVAL - elapsed)))
            else if cfg.allowGuestPrinting then .ok (true, none)
            else .ok (false, some .guestsNotPermitted)
    | none =>
        if cfg.allowGuestPrinting then .ok (true, none)
        else .ok (false, some .guestsNotPermitted)

/-- A persisted-file string value: either a valid ISO-8601 datetime string
(`hasOffset` records whether it carries a UTC offset) or any other string. -/
inductive PyStr where
  | iso (micros : Int) (hasOffset : Bool)
  | nonIso (s : String)
deriving DecidableEq

/-- A persisted-file key: `str(user_id)` for an integer, or some other
string on which `int(...)` raises `ValueError`. -/
inductive KeyStr where
  | intKey (i : Int)
  | nonIntKey (s : String)
deriving DecidableEq

/-- A persisted-file value: old format (plain timestamp string), new format
(object with optional `last_print` / `username` fields), or any other JSON
type (skipped with a warning on load). -/
inductive JsonVal where
  | jstr (s : PyStr)
  | jobj (lastPrint : Option PyStr) (username : Option String)
  | jother
deriving DecidableEq

/-- `datetime.isoformat()`: an aware datetime renders with an offset, a
naive one without. -/
def isoformat (d : PyDatetime) : PyStr := .iso d.micros d.aware

/-- `datetime.fromisoformat(s)`: succeeds exactly on valid ISO strings,
aware iff the string carries an offset; raises `ValueError` otherwise. -/
def fromisoformat : PyStr → Except PyErr PyDatetime
  | .iso m off => .ok ⟨m, off⟩
  | .nonIso _ => .error .valueError

/-- `int(user_id_str)` on a file key. -/
def parseIntKey : KeyStr → Except PyErr Int
  | .intKey i => .ok i
  | .nonIntKey _ => .error .valueError

/-- Per-entry value handling inside `load_print_history`: `.ok (some e)`
for a parsed entry, `.ok none` for a skipped wrong-typed value, `.error`
for a parse failure (caught and skipped by the caller). -/
def loadEntryVal : JsonVal → Except PyErr (Option Entry)
  | .jstr s =>
      match fromisoformat s with
      | .ok dt => .ok (some ⟨dt, "Unknown"⟩)
      | .error e => .error e
  | .jobj lastPrint username =>
      match fromisoformat (lastPrint.getD (.nonIso "")) with
      | .ok dt => .ok (some ⟨dt, username.getD "Unknown"⟩)
      | .error e => .error e
  | .jother => .ok none

/-- One iteration of the `for user_id_str, data in history_data.items()`
loop: parse the key and value, skipping this entry on any failure. -/
def loadStep (acc : History) (kv : KeyStr × JsonVal) : History :=
  match parseIntKey kv.1 with
  | .error _ => acc
  | .ok uid =>
      match loadEntryVal kv.2 with
      | .error _ => acc
      | .ok none => acc
      | .ok (some e) => insertEntry acc uid e

/-- `load_print_history()`: `none` models an absent file (empty history);
otherwise fold the per-entry loop over the file's key/value pairs. -/
def load_print_history (file : Option (List (KeyStr × JsonVal))) : History :=
  match file with
  | none => []
  | some entries => entries.foldl loadStep []

/-- `save_print_history()`: serialise every entry as
`str(user_id) ↦ {"last_print": ..isoformat(), "username": ...}`. -/
def save_print_history (hist : History) : List (KeyStr × JsonVal) :=
  hist.map (fun p => (KeyStr.intKey p.1,
    JsonVal.jobj (some (isoformat p.2.lastPrint)) (some p.2.username)))

/-- The mutable process state touched by the history store: the in-memory
dict and the last successfully written file content (`none` if no write
has succeeded yet). -/
structure World where
  memory : History
  file : Option (List (KeyStr × JsonVal))
deriving DecidableEq

/-- `record_print(user_id, username)`: update the in-memory dict with the
current aware UTC time, then attempt to persist.  `writeOk` models whether
the file write raises `IOError`; a failure is logged and swallowed, so the
function always returns normally and the memory update stays. -/
def record_print (w : World) (uid : Int) (username : Option String)
    (nowMicros : Int) (writeOk : Bool) : World :=
  let mem := insertEntry w.memory uid ⟨⟨nowMicros, true⟩, username.getD "Unknown"⟩
  { memory := mem
    file := if writeOk then some (save_print_history mem) else w.file }

/-- Python whitespace stripped by `str.strip()` (ASCII fragment). -/
def isSpaceChar (c : Char) : Bool :=
  c = ' ' || c = '\t' || c = '\n' || c = '\r' || c = '\x0b' || c = '\x0c'

/-- Drop leading whitespace characters. -/
def dropLeadingSpace : List Char → List Char
  | [] => []
  | c :: cs => if isSpaceChar c then dropLeadingSpace cs else c :: cs

/-- `str.strip()`: drop whitespace from both ends. -/
def stripChars (s : List Char) : List Char :=
  ((dropLeadingSpace ((dropLeadingSpace s).reverse)).reverse)

/-- `caption.strip().lower()`. -/
def normalizeCaption (s : List Char) : List Char := (stripChars s).map Char.toLower

/-- `int(...)` on a digit string: decimal value. -/
def digitsVal (ds : List Char) : Nat :=
  ds.foldl (fun a c => a * 10 + (c.toNat - '0'.toNat)) 0

/-- `re.fullmatch(r'x(\d+)', caption)`: the whole string is `x` followed by
one or more digits; yields the parsed digit group. -/
def matchXNum : List Char → Option Nat
  | [] => none
  | c :: ds =>
      if c = 'x' ∧ ds ≠ [] ∧ ds.all Char.isDigit then some (digitsVal ds) else none

/-- `re.fullmatch(r'copies\s*=\s*(\d+)', caption)`: the whole string is
`copies`, optional whitespace, `=`, optional whitespace, then one or more
digits; yields the parsed digit group. -/
def matchCopiesNum (s : List Char) : Option Nat :=
  match s with
  | c1 :: c2 :: c3 :: c4 :: c5 :: c6 :: rest =>
      if c1 = 'c' ∧ c2 = 'o' ∧ c3 = 'p' ∧ c4 = 'i' ∧ c5 = 'e' ∧ c6 = 's' then
        match dropLeadingSpace rest with
        | c :: rest2 =>
            if c = '=' then
              let ds := dropLeadingSpace rest2
              if ds ≠ [] ∧ ds.all Char.isDigit then some (digitsVal ds) else none
            else none
        | [] => none
      else none
  | _ => none

/-- `parse_copies(caption)`: `None`/empty caption gives 1; otherwise
normalise and try the two exact patterns, clamping an out-of-range count
back to 1.  `maxCopies` is the (runtime-mutable) `MAX_COPIES` global. -/
def parse_copies (caption : Option (List Char)) (maxCopies : Int) : Nat :=
  match caption with
  | none => 1
  | some cap =>
      if cap.isEmpty then 1
      else
        let c := normalizeCaption cap
        match matchXNum c with
        | some copies =>
            if 1 ≤ copies ∧ (copies : Int) ≤ maxCopies then copies else 1
        | none =>
            match matchCopiesNum c with
            | some copies =>
                if 1 ≤ copies ∧ (copies : Int) ≤ maxCopies then copies else 1
            | none => 1

/-- One command argument as seen by `int(args[0])`: an integer-parsable
string or not. -/
inductive Arg where
  | num (n : Int)
  | notNum (s : String)
deriving DecidableEq

/-- Replies of the `/setmaxcopies` handler. -/
inductive SetMaxReply where
  | notAuthorized
  | usage
  | mustBePositive
  | setOk (n : Int)
  | invalidNumber
deriving DecidableEq

/-- `set_max_copies_command`: reject callers outside a non-empty allow-list,
require exactly one positive integer argument, then mutate `MAX_COPIES`. -/
def set_max_copies_command (cfg : Config) (uid : Int) (args : List Arg) :
    Config × SetMaxReply :=
  if cfg.allowedUserIds ≠ [] ∧ uid ∉ cfg.allowedUserIds then (cfg, .notAuthorized)
  else
    match args with
    | [a] =>
        match a with
        | .num n =>
            if n ≤ 0 then (cfg, .mustBePositive)
            else ({ cfg with maxCopies := n }, .setOk n)
        | .notNum _ => (cfg, .invalidNumber)
    | _ => (cfg, .usage)

/-- One inbound image event together with the outcomes of the external
collaborators it will consult. -/
structure DispatchInput where
  userId : Int
  username : Option String
  caption : Option (List Char)
  hasPhoto : Bool
  resizeOk : Bool
  printOk : Bool
  saveOk : Bool
deriving DecidableEq

/-- The terminal user-visible outcome of `handle_image`. -/
inductive DispatchReply where
  | denied (reason : Option DenyReason)
  | pleaseSendImage
  | printerNotConfigured
  | processFailed
  | printedOk (copies : Nat)
  | printFailed
deriving DecidableEq

/-- `handle_image`: eligibility check, copy resolution, resize, CUPS
submission, then the conditional history update.  An uncaught exception
from `can_print` propagates (`Except.error`). -/
def handle_image (cfg : Config) (w : World) (nowMicros : Int)
    (inp : DispatchInput) : Except PyErr (World × DispatchReply) :=
  match can_print cfg w.memory nowMicros inp.userId with
  | .error e => .error e
  | .ok (allowed, reason) =>
      if !allowed then .ok (w, .denied reason)
      else if !inp.hasPhoto then .ok (w, .pleaseSendImage)
      else if !cfg.printerConfigured then .ok (w, .printerNotConfigured)
      else
        let auth := isAuthorized cfg inp.userId
        let copies := if auth then parse_copies inp.caption cfg.maxCopies else 1
        if !inp.resizeOk then .ok (w, .processFailed)
        else if inp.printOk then
          if cfg.allowGuestPrinting ∧ ¬ auth then
            .ok (record_print w inp.userId inp.username nowMicros inp.saveOk,
              .printedOk copies)
          else .ok (w, .printedOk copies)
        else .ok (w, .printFailed)

/-- The world after a dispatch: on an uncaught exception the handler aborts
before any mutation, leaving the world as it was. -/
def resultWorld (w : World) : Except PyErr (World × DispatchReply) → World
  | .ok (w', _) => w'
  | .error _ => w

/-- The reply of a dispatch, if it terminated normally. -/
def resultReply : Except PyErr (World × DispatchReply) → Option DispatchReply
  | .ok (_, r) => some r
  | .error _ => none

/-! ## Helper lemmas -/

theorem isAuthorized_of_mem {cfg : Config} {uid : Int}
    (h : uid ∈ cfg.allowedUserIds) : isAuthorized cfg uid :=
  ⟨List.ne_nil_of_mem h, h⟩

theorem not_isAuthorized_of_not_mem {cfg : Config} {uid : Int}
    (h : uid ∉ cfg.allowedUserIds) : ¬ isAuthorized cfg uid :=
  fun ha => h ha.2

theorem can_print_of_isAuthorized {cfg : Config} {uid : Int}
    (hist : History) (now : Int) (h : isAuthorized cfg uid) :
    can_print cfg hist now uid = .ok (true, none) := by
  simp [can_print, h]

theorem histLookup_map_replace (hist : History) (uid : Int) (e : Entry)
    (h : (histLookup hist uid).isSome = true) :
    histLookup (hist.map (fun p => if p.1 = uid then (uid, e) else p)) uid = some e := by
  induction hist with
  | nil => simp [histLookup] at h
  | cons p t ih =>
      rcases p with ⟨k, v⟩
      by_cases hk : k = uid
      · subst hk; simp [histLookup]
      · simp [histLookup, hk] at h ⊢
        exact ih h

theorem histLookup_append_self (hist : History) (uid : Int) (e : Entry)
    (h : histLookup hist uid = none) :
    histLookup (hist ++ [(uid, e)]) uid = some e := by
  induction hist with
  | nil => simp [histLookup]
  | cons p t ih =>
      rcases p with ⟨k, v⟩
      by_cases hk : k = uid
      · subst hk; simp [histLookup] at h
      · simp [histLookup, hk] at h ⊢
        exact ih h

theorem histLookup_insertEntry_self (hist : History) (uid : Int) (e : Entry) :
    histLookup (insertEntry hist uid e) uid = some e := by
  unfold insertEntry
  by_cases h : (histLookup hist uid).isSome = true
  · simp only [h, if_pos]
    exact histLookup_map_replace hist uid e h
  · have hn : histLookup hist uid = none := by
      cases hx : histLookup hist uid
      · rfl
      · exact absurd (by simp [hx]) h
    simp only [h]
    simp only [Bool.false_eq_true, if_false]
    exact histLookup_append_self hist uid e hn

/-! ## Claim theorems: eligibility engine -/

/-- C2: every user identity in the configured allow-list gets `Allowed`
(`(True, None)`) from `can_print`, for every history store, guest flag and
clock value. -/
theorem can_print_authorized_always_allowed (cfg : Config) (hist : History)
    (now uid : Int) (hmem : uid ∈ cfg.allowedUserIds) :
    can_print cfg hist now uid = .ok (true, none) :=
  can_print_of_isAuthorized hist now (isAuthorized_of_mem hmem)

/-- Witness for C2 at a concrete input. -/
theorem can_print_authorized_always_allowed_witness :
    can_print ⟨[1], false, 100, true⟩ [(1, ⟨⟨0, true⟩, "a"⟩)] 5 1 = .ok (true, none) :=
  can_print_authorized_always_allowed ⟨[1], false, 100, true⟩
    [(1, ⟨⟨0, true⟩, "a"⟩)] 5 1 (by decide)

/-- C3: a non-authorized user whose (offset-aware) last print lies `T` in
the past with `T` under the 7-day interval is denied with the rate-limit
reason carrying remaining wait `interval - T`, whatever the guest flag is. -/
theorem can_print_rate_limited_takes_precedence (cfg : Config) (hist : History)
    (now last uid : Int) (name : String)
    (hauth : uid ∉ cfg.allowedUserIds)
    (hlook : histLookup hist uid = some ⟨⟨last, true⟩, name⟩)
    (hlt : now - last < UNAUTHORIZED_USER_PRINT_INTERVAL) :
    can_print cfg hist now uid =
      .ok (false, some (.rateLimited (UNAUTHORIZED_USER_PRINT_INTERVAL - (now - last)))) := by
  have hna : ¬ isAuthorized cfg uid := not_isAuthorized_of_not_mem hauth
  simp [can_print, hna, hlook, pySub, hlt]

/-- Witness for C3 at a concrete input (guest printing disabled, so the
rate-limit reason indeed wins over the guests-not-permitted one). -/
theorem can_print_rate_limited_takes_precedence_witness :
    can_print ⟨[1], false, 100, true⟩ [(2, ⟨⟨3, true⟩, "bob"⟩)] 5 2 =
      .ok (false, some (.rateLimited (UNAUTHORIZED_USER_PRINT_INTERVAL - 2))) :=
  can_print_rate_limited_takes_precedence ⟨[1], false, 100, true⟩
    [(2, ⟨⟨3, true⟩, "bob"⟩)] 5 3 2 "bob" (by decide) (by decide) (by decide)

/-- C4: a non-authorized user with no history entry, or whose cooldown has
fully elapsed, is allowed iff guest printing is enabled; when it is
disabled the denial carries the guests-not-permitted reason. -/
theorem can_print_guest_gate (cfg : Config) (hist : History) (now uid : Int)
    (hauth : uid ∉ cfg.allowedUserIds)
    (hcase : histLookup hist uid = none ∨
      ∃ last name, histLookup hist uid = some ⟨⟨last, true⟩, name⟩ ∧
        UNAUTHORIZED_USER_PRINT_INTERVAL ≤ now - last) :
    can_print cfg hist now uid =
      .ok (if cfg.allowGuestPrinting then (true, none)
           else (false, some DenyReason.guestsNotPermitted)) ∧
    (can_print cfg hist now uid = .ok (true, none) ↔ cfg.allowGuestPrinting = true) := by
  have hna : ¬ isAuthorized cfg uid := not_isAuthorized_of_not_mem hauth
  have hmain : can_print cfg hist now uid =
      .ok (if cfg.allowGuestPrinting then (true, none)
           else (false, some DenyReason.guestsNotPermitted)) := by
    rcases hcase with hnone | ⟨last, name, hsome, hge⟩
    · simp [can_print, hna, hnone]
      by_cases hg : cfg.allowGuestPrinting <;> simp [hg]
    · have hnlt : ¬ (now - last < UNAUTHORIZED_USER_PRINT_INTERVAL) := not_lt.mpr hge
      simp [can_print, hna, hsome, pySub, hnlt]
      by_cases hg : cfg.allowGuestPrinting <;> simp [hg]
  refine ⟨hmain, ?_⟩
  rw [hmain]
  by_cases hg : cfg.allowGuestPrinting <;> simp [hg]

/-- Witness for C4 at concrete inputs. -/
theorem can_print_guest_gate_witness :
    can_print ⟨[1], false, 100, true⟩ [] 5 2 =
      .ok (false, some DenyReason.guestsNotPermitted) := by
  have h := can_print_guest_gate ⟨[1], false, 100, true⟩ [] 5 2 (by decide) (Or.inl (by decide))
  simpa using h.1

/-- C6: `record_print` immediately followed by `can_print` for the same
non-authorized user yields the rate-limit denial (with the full interval
remaining), assuming guest printing is enabled and the cooldown positive. -/
theorem record_print_then_can_print_denied (cfg : Config) (w : World)
    (uid now : Int) (un : Option String) (writeOk : Bool)
    (hauth : uid ∉ cfg.allowedUserIds)
    (hguest : cfg.allowGuestPrinting = true)
    (hpos : 0 < UNAUTHORIZED_USER_PRINT_INTERVAL) :
    can_print cfg (record_print w uid un now writeOk).memory now uid =
      .ok (false, some (.rateLimited UNAUTHORIZED_USER_PRINT_INTERVAL)) := by
  have hna : ¬ isAuthorized cfg uid := not_isAuthorized_of_not_mem hauth
  have hlk : histLookup (record_print w uid un now writeOk).memory uid =
      some ⟨⟨now, true⟩, un.getD "Unknown"⟩ := by
    simp only [record_print]
    exact histLookup_insertEntry_self _ _ _
  simp [can_print, hna, hlk, pySub, hpos]

/-- Witness for C6 at a concrete input. -/
theorem record_print_then_can_print_denied_witness :
    can_print ⟨[1], true, 100, true⟩
        (record_print ⟨[], none⟩ 2 (some "bob") 41 true).memory 41 2 =
      .ok (false, some (.rateLimited UNAUTHORIZED_USER_PRINT_INTERVAL)) :=
  record_print_then_can_print_denied ⟨[1], true, 100, true⟩ ⟨[], none⟩ 2 41
    (some "bob") true (by decide) rfl (by decide)

/-- C10: `load_print_history` accepts a legacy plain-string timestamp with
no UTC offset as a valid (offset-naive) entry, and a subsequent `can_print`
for that non-authorized user raises `TypeError` (offset-aware minus
offset-naive) instead of returning a decision. -/
theorem load_legacy_naive_then_can_print_raises (cfg : Config) (uid m now : Int)
    (hauth : uid ∉ cfg.allowedUserIds) :
    load_print_history (some [(KeyStr.intKey uid, JsonVal.jstr (PyStr.iso m false))]) =
      [(uid, ⟨⟨m, false⟩, "Unknown"⟩)] ∧
    can_print cfg [(uid, ⟨⟨m, false⟩, "Unknown"⟩)] now uid = .error .typeError := by
  have hna : ¬ isAuthorized cfg uid := not_isAuthorized_of_not_mem hauth
  constructor
  · rfl
  · simp [can_print, hna, histLookup, pySub]

/-- Witness for C10 at a concrete input. -/
theorem load_legacy_naive_then_can_print_raises_witness :
    load_print_history (some [(KeyStr.intKey 42, JsonVal.jstr (PyStr.iso 0 false))]) =
      [(42, ⟨⟨0, false⟩, "Unknown"⟩)] ∧
    can_print ⟨[1], true, 100, true⟩ [(42, ⟨⟨0, false⟩, "Unknown"⟩)] 7 42 =
      .error .typeError :=
  load_legacy_naive_then_can_print_raises ⟨[1], true, 100, true⟩ 42 0 7 (by decide)

/-! ## Claim theorems: dispatch path and history store -/

/-- C5: along `handle_image`, the history is created/updated only
immediately after a successful submission by a non-authorized user with
guest printing enabled (and then exactly via `record_print`); a request by
an authorized user leaves the store untouched whatever the outcome. -/
theorem handle_image_history_invariant (cfg : Config) (w : World) (now : Int)
    (inp : DispatchInput) :
    (isAuthorized cfg inp.userId → resultWorld w (handle_image cfg w now inp) = w) ∧
    ((resultWorld w (handle_image cfg w now inp)).memory ≠ w.memory →
      ¬ isAuthorized cfg inp.userId ∧ cfg.allowGuestPrinting = true ∧
        inp.printOk = true ∧
        resultWorld w (handle_image cfg w now inp) =
          record_print w inp.userId inp.username now inp.saveOk) := by
  constructor
  · intro hauth
    have hcp := can_print_of_isAuthorized w.memory now hauth
    simp only [handle_image, hcp]
    by_cases h1 : inp.hasPhoto <;> by_cases h2 : cfg.printerConfigured <;>
      by_cases h3 : inp.resizeOk <;> by_cases h4 : inp.printOk <;>
      simp [h1, h2, h3, h4, resultWorld, hauth]
  · intro hch
    simp only [handle_image] at hch ⊢
    cases hcp : can_print cfg w.memory now inp.userId with
    | error e => rw [hcp] at hch; simp [resultWorld] at hch
    | ok p =>
        rw [hcp] at hch
        rcases p with ⟨allowed, reason⟩
        by_cases ha : allowed = true
        · subst ha
          by_cases h1 : inp.hasPhoto
          · by_cases h2 : cfg.printerConfigured
            · by_cases h3 : inp.resizeOk
              · by_cases h4 : inp.printOk
                · by_cases h5 : cfg.allowGuestPrinting ∧ ¬ isAuthorized cfg inp.userId
                  · refine ⟨h5.2, h5.1, h4, ?_⟩
                    simp [h1, h2, h3, h4, h5, resultWorld]
                  · simp [h1, h2, h3, h4, h5, resultWorld] at hch
                · simp [h1, h2, h3, h4, resultWorld] at hch
              · simp [h1, h2, h3, resultWorld] at hch
            · simp [h1, h2, resultWorld] at hch
          · simp [h1, resultWorld] at hch
        · have ha' : allowed = false := by
            cases allowed
            · rfl
            · exact absurd rfl ha
          subst ha'
          simp [resultWorld] at hch

/-- Witness for C5 at concrete inputs: an authorized request with a
successful submission leaves the store untouched, and a successful guest
request that does change the store satisfies the stated conditions. -/
theorem handle_image_history_invariant_witness :
    resultWorld ⟨[], none⟩
        (handle_image ⟨[1], true, 100, true⟩ ⟨[], none⟩ 5
          ⟨1, some "al", none, true, true, true, true⟩) = ⟨[], none⟩ ∧
    (¬ isAuthorized ⟨[1], true, 100, true⟩ 2 ∧
      (⟨[1], true, 100, true⟩ : Config).allowGuestPrinting = true ∧
      (⟨2, some "bob", none, true, true, true, true⟩ : DispatchInput).printOk = true ∧
      resultWorld ⟨[], none⟩
          (handle_image ⟨[1], true, 100, true⟩ ⟨[], none⟩ 5
            ⟨2, some "bob", none, true, true, true, true⟩) =
        record_print ⟨[], none⟩ 2 (some "bob") 5 true) := by
  constructor
  · exact (handle_image_history_invariant ⟨[1], true, 100, true⟩ ⟨[], none⟩ 5
      ⟨1, some "al", none, true, true, true, true⟩).1 (by decide)
  · exact (handle_image_history_invariant ⟨[1], true, 100, true⟩ ⟨[], none⟩ 5
      ⟨2, some "bob", none, true, true, true, true⟩).2 (by decide)

/-- C8: `record_print` applies the in-memory update first and then
persists that updated map; a write failure leaves the in-memory update in
place (and the previous file content), and the dispatch path's observable
outcome does not depend on whether the write succeeded. -/
theorem record_print_update_first_persist_swallowed (w : World) (uid : Int)
    (un : Option String) (now : Int) :
    (∀ writeOk, (record_print w uid un now writeOk).memory =
        insertEntry w.memory uid ⟨⟨now, true⟩, un.getD "Unknown"⟩) ∧
    (record_print w uid un now true).file =
      some (save_print_history
        (insertEntry w.memory uid ⟨⟨now, true⟩, un.getD "Unknown"⟩)) ∧
    (record_print w uid un now false).file = w.file ∧
    (∀ (cfg : Config) (nw : Int) (inp : DispatchInput) (b : Bool),
        resultReply (handle_image cfg w nw { inp with saveOk := b }) =
          resultReply (handle_image cfg w nw { inp with saveOk := true }) ∧
        (resultWorld w (handle_image cfg w nw { inp with saveOk := b })).memory =
          (resultWorld w (handle_image cfg w nw { inp with saveOk := true })).memory) := by
  refine ⟨fun writeOk => rfl, rfl, rfl, ?_⟩
  intro cfg nw inp b
  simp only [handle_image]
  cases hcp : can_print cfg w.memory nw inp.userId with
  | error e => simp [resultReply, resultWorld]
  | ok p =>
      rcases p with ⟨allowed, reason⟩
      by_cases ha : allowed = true
      · subst ha
        by_cases h1 : inp.hasPhoto <;> by_cases h2 : cfg.printerConfigured <;>
          by_cases h3 : inp.resizeOk <;> by_cases h4 : inp.printOk <;>
          by_cases h5 : cfg.allowGuestPrinting ∧ ¬ isAuthorized cfg inp.userId <;>
          simp [h1, h2, h3, h4, h5, resultReply, resultWorld, record_print]
      · have ha' : allowed = false := by
          cases allowed
          · rfl
          · exact absurd rfl ha
        subst ha'
        simp [resultReply, resultWorld]

/-! ## Claim theorems: /setmaxcopies command -/

/-- Counterexample to C9 as stated: with an *empty* configured allow-list
the Python guard `ALLOWED_USER_IDS and user.id not in ALLOWED_USER_IDS` is
falsy, so a user who is not in the allow-list mutates `MAX_COPIES` and is
not given the not-authorized reply. -/
theorem set_max_copies_open_when_allowlist_empty :
    (5 : Int) ∉ (Config.mk [] true 100 true).allowedUserIds ∧
    (set_max_copies_command (Config.mk [] true 100 true) 5 [Arg.num 50]).1.maxCopies ≠
      (Config.mk [] true 100 true).maxCopies ∧
    (set_max_copies_command (Config.mk [] true 100 true) 5 [Arg.num 50]).2 ≠
      SetMaxReply.notAuthorized := by
  decide

/-- C9 (amended): when the configured allow-list is non-empty, the command
is authorized-only — a caller outside the list leaves `MAX_COPIES`
unchanged and gets the not-authorized reply; and whenever the command does
change `MAX_COPIES`, the caller was in the allow-list (or the allow-list
was empty, in which case the check is skipped) and the new value is the
single positive integer argument. -/
theorem set_max_copies_authorized_only (cfg : Config) :
    (∀ (uid : Int) (args : List Arg), cfg.allowedUserIds ≠ [] →
        uid ∉ cfg.allowedUserIds →
        set_max_copies_command cfg uid args = (cfg, .notAuthorized)) ∧
    (∀ (uid : Int) (args : List Arg),
        (set_max_copies_command cfg uid args).1.maxCopies ≠ cfg.maxCopies →
        (cfg.allowedUserIds = [] ∨ uid ∈ cfg.allowedUserIds) ∧
        ∃ n : Int, 0 < n ∧ args = [Arg.num n] ∧
          (set_max_copies_command cfg uid args).1 = { cfg with maxCopies := n }) := by
  constructor
  · intro uid args hne hnm
    simp [set_max_copies_command, hne, hnm]
  · intro uid args hch
    by_cases hg : cfg.allowedUserIds ≠ [] ∧ uid ∉ cfg.allowedUserIds
    · simp [set_max_copies_command, hg] at hch
    · have hg' : cfg.allowedUserIds = [] ∨ uid ∈ cfg.allowedUserIds := by
        by_cases he : cfg.allowedUserIds = []
        · exact Or.inl he
        · right
          by_cases hm : uid ∈ cfg.allowedUserIds
          · exact hm
          · exact absurd ⟨he, hm⟩ hg
      refine ⟨hg', ?_⟩
      simp only [set_max_copies_command, if_neg hg] at hch ⊢
      match args with
      | [] => simp at hch
      | a :: b :: t => simp at hch
      | [Arg.notNum s] => simp at hch
      | [Arg.num n] =>
          by_cases hn : n ≤ 0
          · simp [hn] at hch
          · refine ⟨n, lt_of_not_le hn, rfl, ?_⟩
            simp [hn]

/-- Witness for the amended C9 at concrete inputs. -/
theorem set_max_copies_authorized_only_witness :
    set_max_copies_command ⟨[1], true, 100, true⟩ 2 [Arg.num 50] =
      (⟨[1], true, 100, true⟩, .notAuthorized) ∧
    ((Config.mk [1] true 100 true).allowedUserIds = [] ∨
      (1 : Int) ∈ (Config.mk [1] true 100 true).allowedUserIds) ∧
    ∃ n : Int, 0 < n ∧ [Arg.num 50] = [Arg.num n] ∧
      (set_max_copies_command ⟨[1], true, 100, true⟩ 1 [Arg.num 50]).1 =
        { Config.mk [1] true 100 true with maxCopies := n } := by
  constructor
  · exact (set_max_copies_authorized_only ⟨[1], true, 100, true⟩).1 2 [Arg.num 50]
      (by decide) (by decide)
  · exact (set_max_copies_authorized_only ⟨[1], true, 100, true⟩).2 1 [Arg.num 50]
      (by decide)

/-! ## Claim theorems: history persistence round-trip -/

theorem histLookup_eq_none_of_not_mem_keys (hist : History) (uid : Int)
    (h : uid ∉ hist.map Prod.fst) : histLookup hist uid = none := by
  induction hist with
  | nil => rfl
  | cons p t ih =>
      simp only [List.map_cons, List.mem_cons] at h
      push_neg at h
      have hk : p.1 ≠ uid := fun he => h.1 he.symm
      simp [histLookup, hk]
      exact ih h.2

theorem insertEntry_eq_append_of_not_mem_keys (hist : History) (uid : Int)
    (e : Entry) (h : uid ∉ hist.map Prod.fst) :
    insertEntry hist uid e = hist ++ [(uid, e)] := by
  simp [insertEntry, histLookup_eq_none_of_not_mem_keys hist uid h]

theorem load_save_foldl (hist : History) :
    ∀ acc : History, NodupKeys (acc ++ hist) →
      (save_print_history hist).foldl loadStep acc = acc ++ hist := by
  induction hist with
  | nil => intro acc _; simp [save_print_history]
  | cons p t ih =>
      intro acc h
      rcases p with ⟨u, e⟩
      have hu : u ∉ acc.map Prod.fst := by
        have := h
        simp only [NodupKeys, List.map_append, List.map_cons] at this
        have h2 := (List.nodup_append.mp this).2.2
        intro hmem
        exact h2 hmem (by simp)
      have hstep : loadStep acc (KeyStr.intKey u,
          JsonVal.jobj (some (isoformat e.lastPrint)) (some e.username)) =
          acc ++ [(u, e)] := by
        simp only [loadStep, parseIntKey, loadEntryVal, isoformat, fromisoformat,
          Option.getD_some]
        exact insertEntry_eq_append_of_not_mem_keys acc u e hu
      have hnd : NodupKeys ((acc ++ [(u, e)]) ++ t) := by
        simp only [NodupKeys] at h ⊢
        simpa [List.append_assoc] using h
      calc (save_print_history ((u, e) :: t)).foldl loadStep acc
      _ = (save_print_history t).foldl loadStep (acc ++ [(u, e)]) := by
            simp only [save_print_history, List.map_cons, List.foldl_cons, hstep]
      _ = (acc ++ [(u, e)]) ++ t := ih (acc ++ [(u, e)]) hnd
      _ = acc ++ ((u, e) :: t) := by simp

/-- C7: saving the in-memory history and loading it back reproduces the
same user-to-(timestamp, name) mapping exactly (the model keeps full
microsecond precision, so in particular up to sub-second precision). -/
theorem save_then_load_roundtrip (hist : History) (h : NodupKeys hist) :
    load_print_history (some (save_print_history hist)) = hist := by
  have := load_save_foldl hist [] (by simpa using h)
  simpa [load_print_history] using this

/-- Witness for C7 at a concrete two-entry store. -/
theorem save_then_load_roundtrip_witness :
    load_print_history (some (save_print_history
        [(2, ⟨⟨5, true⟩, "bob"⟩), (3, ⟨⟨9, true⟩, "ann"⟩)])) =
      [(2, ⟨⟨5, true⟩, "bob"⟩), (3, ⟨⟨9, true⟩, "ann"⟩)] :=
  save_then_load_roundtrip [(2, ⟨⟨5, true⟩, "bob"⟩), (3, ⟨⟨9, true⟩, "ann"⟩)]
    (by unfold NodupKeys; decide)

/-! ## Claim theorems: caption copy parser -/

theorem digit_not_space (c : Char) (h : c.isDigit = true) : isSpaceChar c = false := by
  cases hx : isSpaceChar c
  · rfl
  · exfalso
    have hx' := hx
    simp only [isSpaceChar, Bool.or_eq_true, decide_eq_true_eq] at hx'
    rcases hx' with ((((h1 | h1) | h1) | h1) | h1) | h1 <;> subst h1 <;>
      exact absurd h (by decide)

theorem dropLeadingSpace_append (ws l : List Char) (h : ws.all isSpaceChar = true) :
    dropLeadingSpace (ws ++ l) = dropLeadingSpace l := by
  induction ws with
  | nil => rfl
  | cons c t ih =>
      simp only [List.all_cons, Bool.and_eq_true] at h
      simp [dropLeadingSpace, h.1, ih h.2]

theorem dropLeadingSpace_not_space (c : Char) (l : List Char)
    (h : isSpaceChar c = false) : dropLeadingSpace (c :: l) = c :: l := by
  simp [dropLeadingSpace, h]

theorem dropLeadingSpace_digits (ds : List Char) (hne : ds ≠ [])
    (hd : ds.all Char.isDigit = true) : dropLeadingSpace ds = ds := by
  cases ds with
  | nil => exact absurd rfl hne
  | cons c t =>
      simp only [List.all_cons, Bool.and_eq_true] at hd
      exact dropLeadingSpace_not_space c t (digit_not_space c hd.1)

theorem dropLeadingSpace_decomp (l : List Char) :
    ∃ ws, l = ws ++ dropLeadingSpace l ∧ ws.all isSpaceChar = true := by
  induction l with
  | nil => exact ⟨[], rfl, rfl⟩
  | cons c t ih =>
      cases hx : isSpaceChar c
      · exact ⟨[], by simp [dropLeadingSpace, hx], rfl⟩
      · rcases ih with ⟨ws, h1, h2⟩
        refine ⟨c :: ws, ?_, ?_⟩
        · have hdl : dropLeadingSpace (c :: t) = dropLeadingSpace t := by
            simp [dropLeadingSpace, hx]
          rw [hdl, List.cons_append]
          exact congrArg (c :: ·) h1
        · simp [List.all_cons, hx, h2]

theorem matchXNum_x_digits (ds : List Char) (hne : ds ≠ [])
    (hd : ds.all Char.isDigit = true) :
    matchXNum ('x' :: ds) = some (digitsVal ds) := by
  simp [matchXNum, hne, hd]

theorem matchXNum_some (s : List Char) (n : Nat) (h : matchXNum s = some n) :
    ∃ ds, s = 'x' :: ds ∧ ds ≠ [] ∧ ds.all Char.isDigit = true ∧ n = digitsVal ds := by
  cases s with
  | nil => simp [matchXNum] at h
  | cons c ds =>
      simp only [matchXNum, Option.ite_none_right_eq_some, Option.some.injEq] at h
      obtain ⟨⟨h1, h2, h3⟩, hval⟩ := h
      subst h1
      exact ⟨ds, rfl, h2, h3, hval.symm⟩

theorem matchCopiesNum_pattern (ws1 ws2 ds : List Char)
    (hw1 : ws1.all isSpaceChar = true) (hw2 : ws2.all isSpaceChar = true)
    (hne : ds ≠ []) (hd : ds.all Char.isDigit = true) :
    matchCopiesNum ('c' :: 'o' :: 'p' :: 'i' :: 'e' :: 's' :: (ws1 ++ '=' :: (ws2 ++ ds))) =
      some (digitsVal ds) := by
  have h1 : dropLeadingSpace (ws1 ++ '=' :: (ws2 ++ ds)) = '=' :: (ws2 ++ ds) := by
    rw [dropLeadingSpace_append _ _ hw1]
    exact dropLeadingSpace_not_space '=' _ (by decide)
  have h2 : dropLeadingSpace (ws2 ++ ds) = ds := by
    rw [dropLeadingSpace_append _ _ hw2]
    exact dropLeadingSpace_digits ds hne hd
  simp [matchCopiesNum, h1, h2, hne, hd]

theorem matchCopiesNum_some (s : List Char) (n : Nat) (h : matchCopiesNum s = some n) :
    ∃ ws1 ws2 ds, ws1.all isSpaceChar = true ∧ ws2.all isSpaceChar = true ∧
      ds ≠ [] ∧ ds.all Char.isDigit = true ∧
      s = 'c' :: 'o' :: 'p' :: 'i' :: 'e' :: 's' :: (ws1 ++ '=' :: (ws2 ++ ds)) ∧
      n = digitsVal ds := by
  rcases s with _ | ⟨c1, _ | ⟨c2, _ | ⟨c3, _ | ⟨c4, _ | ⟨c5, _ | ⟨c6, rest⟩⟩⟩⟩⟩⟩
  · simp [matchCopiesNum] at h
  · simp [matchCopiesNum] at h
  · simp [matchCopiesNum] at h
  · simp [matchCopiesNum] at h
  · simp [matchCopiesNum] at h
  · simp [matchCopiesNum] at h
  cases hdl : dropLeadingSpace rest with
  | nil => simp [matchCopiesNum, hdl] at h
  | cons c rest2 =>
      simp only [matchCopiesNum, hdl, Option.ite_none_right_eq_some,
        Option.some.injEq] at h
      obtain ⟨⟨e1, e2, e3, e4, e5, e6⟩, hce, ⟨hne', hall'⟩, hval⟩ := h
      subst e1; subst e2; subst e3; subst e4; subst e5; subst e6; subst hce
      obtain ⟨ws1, hw1, hws1⟩ := dropLeadingSpace_decomp rest
      obtain ⟨ws2, hw2, hws2⟩ := dropLeadingSpace_decomp rest2
      refine ⟨ws1, ws2, dropLeadingSpace rest2, hws1, hws2, hne', hall', ?_, hval.symm⟩
      have hrest : rest = ws1 ++ '=' :: (ws2 ++ dropLeadingSpace rest2) := by
        rw [hw1, hdl]
        exact congrArg (fun z => ws1 ++ '=' :: z) hw2
      rw [hrest]

/-- C1: `parse_copies` returns the parsed `N` exactly when the trimmed,
case-folded caption fully matches `x<digits>` or `copies`-whitespace-`=`-
whitespace-`<digits>` and `1 ≤ N ≤ MAX_COPIES`; out-of-range matches,
non-matching captions and empty/absent captions give 1, and any non-1
result arises only from such a full match with an in-range value. -/
theorem parse_copies_correct (maxCopies : Int) :
    parse_copies none maxCopies = 1 ∧
    parse_copies (some []) maxCopies = 1 ∧
    (∀ (cap ds : List Char), normalizeCaption cap = 'x' :: ds → ds ≠ [] →
        ds.all Char.isDigit = true →
        parse_copies (some cap) maxCopies =
          if 1 ≤ digitsVal ds ∧ (digitsVal ds : Int) ≤ maxCopies then digitsVal ds
          else 1) ∧
    (∀ (cap ws1 ws2 ds : List Char), ws1.all isSpaceChar = true →
        ws2.all isSpaceChar = true → ds ≠ [] → ds.all Char.isDigit = true →
        normalizeCaption cap =
          'c' :: 'o' :: 'p' :: 'i' :: 'e' :: 's' :: (ws1 ++ '=' :: (ws2 ++ ds)) →
        parse_copies (some cap) maxCopies =
          if 1 ≤ digitsVal ds ∧ (digitsVal ds : Int) ≤ maxCopies then digitsVal ds
          else 1) ∧
    (∀ cap : List Char, parse_copies (some cap) maxCopies ≠ 1 →
        (∃ ds, normalizeCaption cap = 'x' :: ds ∧ ds ≠ [] ∧
            ds.all Char.isDigit = true ∧
            parse_copies (some cap) maxCopies = digitsVal ds ∧
            1 ≤ digitsVal ds ∧ (digitsVal ds : Int) ≤ maxCopies) ∨
        (∃ ws1 ws2 ds, ws1.all isSpaceChar = true ∧ ws2.all isSpaceChar = true ∧
            ds ≠ [] ∧ ds.all Char.isDigit = true ∧
            normalizeCaption cap =
              'c' :: 'o' :: 'p' :: 'i' :: 'e' :: 's' :: (ws1 ++ '=' :: (ws2 ++ ds)) ∧
            parse_copies (some cap) maxCopies = digitsVal ds ∧
            1 ≤ digitsVal ds ∧ (digitsVal ds : Int) ≤ maxCopies)) := by
  refine ⟨rfl, rfl, ?_, ?_, ?_⟩
  · intro cap ds hnorm hne hd
    have hcap : cap.isEmpty = false := by
      cases cap
      · exact absurd hnorm (by simp [normalizeCaption, stripChars, dropLeadingSpace])
      · rfl
    have hx : matchXNum (normalizeCaption cap) = some (digitsVal ds) := by
      rw [hnorm]
      exact matchXNum_x_digits ds hne hd
    simp [parse_copies, hcap, hx]
  · intro cap ws1 ws2 ds hw1 hw2 hne hd hnorm
    have hcap : cap.isEmpty = false := by
      cases cap
      · exact absurd hnorm (by simp [normalizeCaption, stripChars, dropLeadingSpace])
      · rfl
    have hx : matchXNum (normalizeCaption cap) = none := by
      rw [hnorm]
      simp [matchXNum]
    have hcm : matchCopiesNum (normalizeCaption cap) = some (digitsVal ds) := by
      rw [hnorm]
      exact matchCopiesNum_pattern ws1 ws2 ds hw1 hw2 hne hd
    simp [parse_copies, hcap, hx, hcm]
  · intro cap hne1
    by_cases hemp : cap.isEmpty
    · exact absurd (by simp [parse_copies, hemp]) hne1
    · cases hx : matchXNum (normalizeCaption cap) with
      | some n =>
          left
          obtain ⟨ds, hs, hdne, hdd, hn⟩ := matchXNum_some _ _ hx
          subst hn
          by_cases hr : 1 ≤ digitsVal ds ∧ (digitsVal ds : Int) ≤ maxCopies
          · refine ⟨ds, hs, hdne, hdd, ?_, hr.1, hr.2⟩
            simp [parse_copies, hemp, hx, hr]
          · exact absurd (by simp [parse_copies, hemp, hx, hr]) hne1
      | none =>
          cases hcm : matchCopiesNum (normalizeCaption cap) with
          | some n =>
              right
              obtain ⟨ws1, ws2, ds, hw1, hw2, hdne, hdd, hs, hn⟩ :=
                matchCopiesNum_some _ _ hcm
              subst hn
              by_cases hr : 1 ≤ digitsVal ds ∧ (digitsVal ds : Int) ≤ maxCopies
              · exact ⟨ws1, ws2, ds, hw1, hw2, hdne, hdd, hs,
                  by simp [parse_copies, hemp, hx, hcm, hr], hr.1, hr.2⟩
              · exact absurd (by simp [parse_copies, hemp, hx, hcm, hr]) hne1
          | none => exact absurd (by simp [parse_copies, hemp, hx, hcm]) hne1

/-- Witness for C1 at concrete captions: `x3` gives 3 (spec scenario also
checks mixed case), `copies = 5` gives 5, an absent caption gives 1. -/
theorem parse_copies_correct_witness :
    parse_copies (some ['x', '3']) 50 = 3 ∧
    parse_copies (some ['c', 'o', 'p', 'i', 'e', 's', ' ', '=', ' ', '5']) 50 = 5 ∧
    parse_copies none 50 = 1 := by
  refine ⟨?_, ?_, (parse_copies_correct 50).1⟩
  · have h := (parse_copies_correct 50).2.2.1 ['x', '3'] ['3']
      (by decide) (by decide) (by decide)
    rw [h]
    decide
  · have h := (parse_copies_correct 50).2.2.2.1
      ['c', 'o', 'p', 'i', 'e', 's', ' ', '=', ' ', '5'] [' '] [' '] ['5']
      (by decide) (by decide) (by decide) (by decide) (by decide)
    rw [h]
    decide
